import Mathlib

/-!
Verification of the static photo-album generator
(`sync_captions.py` and `generate_album.py`).

Python strings are modelled as `List Char` (code-point sequences, which is
what Python string comparison and `str.replace` operate on).  Python's
`str.lower` is modelled by `Char.toLower` applied character-wise (an ASCII
model of Unicode lowercasing; all behaviour relevant to the claims is
ASCII).  The filesystem is modelled as an explicit list of directory
entries, and file contents as `Option (List Char)` (`none` = file absent).
-/

abbrev Str := List Char

/-- Convert a Lean string literal to the `List Char` string model. -/
def strL (s : String) : Str := s.toList

/-- Characters stripped by Python's `str.strip()` (Unicode whitespace:
ASCII whitespace, the C0 separators, NEL and the Unicode space category). -/
def pyIsSpace (c : Char) : Bool :=
  c = ' ' || c = '\t' || c = '\n' || c = '\r' ||
  c = '\x0b' || c = '\x0c' ||
  c = '\x1c' || c = '\x1d' || c = '\x1e' || c = '\x1f' ||
  c = '\x85' || c = '\xa0' ||
  c.toNat = 0x1680 || (0x2000 ≤ c.toNat && c.toNat ≤ 0x200a) ||
  c.toNat = 0x2028 || c.toNat = 0x2029 || c.toNat = 0x202f ||
  c.toNat = 0x205f || c.toNat = 0x3000

/-- Python `str.lstrip()`. -/
def pyLstrip (s : Str) : Str := s.dropWhile pyIsSpace

/-- Python `str.rstrip()`. -/
def pyRstrip (s : Str) : Str := (s.reverse.dropWhile pyIsSpace).reverse

/-- Python `str.strip()`: drop leading and trailing whitespace. -/
def pyStrip (s : Str) : Str := pyRstrip (pyLstrip s)

/-- Python `str.lower()` (ASCII model: `Char.toLower` character-wise). -/
def pyLower (s : Str) : Str := s.map Char.toLower

/-- Lexicographic `≤` on code-point sequences: Python's `str` comparison. -/
def lexLe : Str → Str → Bool
  | [], _ => true
  | _ :: _, [] => false
  | a :: as, b :: bs =>
    if a.toNat < b.toNat then true
    else if b.toNat < a.toNat then false
    else lexLe as bs

/-- The sort order used by `files.sort(key=str.lower)`: compare the
lowercased strings lexicographically. -/
def keyLe (a b : Str) : Prop := lexLe (pyLower a) (pyLower b) = true

instance : DecidableRel keyLe := fun a b => by
  unfold keyLe; infer_instance

instance : IsTotal Str keyLe where
  total := by
    intro a b
    show lexLe (pyLower a) (pyLower b) = true ∨ lexLe (pyLower b) (pyLower a) = true
    generalize pyLower a = u
    generalize pyLower b = v
    induction u generalizing v with
    | nil => left; rfl
    | cons x xs ih =>
      cases v with
      | nil => right; rfl
      | cons y ys =>
        simp only [lexLe]
        rcases Nat.lt_trichotomy x.toNat y.toNat with h | h | h
        · left; simp [h]
        · have h1 : ¬ x.toNat < y.toNat := by omega
          have h2 : ¬ y.toNat < x.toNat := by omega
          rcases ih ys with hc | hc
          · left; simp [h1, h2, h, hc]
          · right; simp [h1, h2, h.symm, hc]
        · right; simp [h]

instance : IsTrans Str keyLe where
  trans := by
    intro a b c
    show lexLe (pyLower a) (pyLower b) = true →
      lexLe (pyLower b) (pyLower c) = true →
      lexLe (pyLower a) (pyLower c) = true
    generalize pyLower a = u
    generalize pyLower b = v
    generalize pyLower c = w
    induction u generalizing v w with
    | nil => intro _ _; rfl
    | cons x xs ih =>
      intro hab hbc
      cases v with
      | nil => simp [lexLe] at hab
      | cons y ys =>
        cases w with
        | nil => simp [lexLe] at hbc
        | cons z zs =>
          simp only [lexLe] at hab hbc ⊢
          by_cases hxy : x.toNat < y.toNat
          · by_cases hyz : y.toNat < z.toNat
            · have h : x.toNat < z.toNat := Nat.lt_trans hxy hyz
              rw [if_pos h]
            · by_cases hzy : z.toNat < y.toNat
              · rw [if_neg hyz, if_pos hzy] at hbc
                exact Bool.noConfusion hbc
              · have h : x.toNat < z.toNat := by omega
                rw [if_pos h]
          · by_cases hyx : y.toNat < x.toNat
            · rw [if_neg hxy, if_pos hyx] at hab
              exact Bool.noConfusion hab
            · by_cases hyz : y.toNat < z.toNat
              · have h : x.toNat < z.toNat := by omega
                rw [if_pos h]
              · by_cases hzy : z.toNat < y.toNat
                · rw [if_neg hyz, if_pos hzy] at hbc
                  exact Bool.noConfusion hbc
                · have h1 : ¬ x.toNat < z.toNat := by omega
                  have h2 : ¬ z.toNat < x.toNat := by omega
                  rw [if_neg hxy, if_neg hyx] at hab
                  rw [if_neg hyz, if_neg hzy] at hbc
                  rw [if_neg h1, if_neg h2]
                  exact ih ys zs hab hbc

/-- Index of the last `'.'` in a name (Python `name.rfind('.')`, as an
`Option`: `none` when there is no dot). -/
def rfindDot : Str → Option Nat
  | [] => none
  | c :: cs =>
    match rfindDot cs with
    | some i => some (i + 1)
    | none => if c = '.' then some 0 else none

/-- `pathlib.PurePath.suffix`: the extension of the final component.
CPython: `i = name.rfind('.'); return name[i:] if 0 < i < len(name) - 1
else ''` — a pure dotfile (dot at position 0) has no suffix. -/
def pySuffix (name : Str) : Str :=
  match rfindDot name with
  | some i => if 0 < i ∧ i + 1 < name.length then name.drop i else []
  | none => []

/-- `pathlib.PurePath.stem`: the final component without its suffix. -/
def pyStem (name : Str) : Str :=
  match rfindDot name with
  | some i => if 0 < i ∧ i + 1 < name.length then name.take i else name
  | none => name

/-- `IMAGE_EXTS = {".jpg", ".jpeg", ".png", ".webp", ".gif"}` (identical in
both scripts). -/
def IMAGE_EXTS : List Str :=
  [strL ".jpg", strL ".jpeg", strL ".png", strL ".webp", strL ".gif"]

/-- One directory entry as seen by `Path.iterdir()`: its name and whether
`p.is_file()` holds. -/
structure Entry where
  name : Str
  isFile : Bool
deriving DecidableEq, Repr

/-- The filter of `list_images`:
`p.is_file() and p.suffix.lower() in IMAGE_EXTS`. -/
def eligible (e : Entry) : Bool :=
  e.isFile && decide (pyLower (pySuffix e.name) ∈ IMAGE_EXTS)

/-- `list_images` (identical logic in both scripts): keep eligible regular
files, then `files.sort(key=str.lower)` — a stable sort by the lowercased
name.  Python's list sort is stable; `List.insertionSort` is the stable
sort on lists. -/
def list_images (d : List Entry) : List Str :=
  List.insertionSort keyLe ((d.filter eligible).map Entry.name)

/-! ## Album Renderer: escaping and figure blocks (`generate_album.py`) -/

/-- Python `s.replace(c, rep)` for a single-character pattern. -/
def pyReplace (c : Char) (rep : Str) (s : Str) : Str :=
  s.flatMap (fun a => if a = c then rep else [a])

/-- `escape_html`: replace `&`, then `<`, then `>`, then `"`. -/
def escape_html (s : Str) : Str :=
  pyReplace '"' (strL "&quot;")
    (pyReplace '>' (strL "&gt;")
      (pyReplace '<' (strL "&lt;")
        (pyReplace '&' (strL "&amp;") s)))

/-- `escape_attr`: `escape_html` plus `'` replaced by `&#39;`. -/
def escape_attr (s : Str) : Str :=
  pyReplace '\'' (strL "&#39;") (escape_html s)

/-- The placeholder title used when a caption title is empty. -/
def placeholder : Str := strL "（キャプション未入力）"

/-- Template text of `figure_block` before the `href` value. -/
def tplA : Str := strL "    <figure>\n      <a class=\"thumb\" href=\"images/"

/-- Template text between the `href` and `src` values. -/
def tplB : Str := strL "\">\n        <img src=\"images/"

/-- Template text between the `src` and `alt` values. -/
def tplC : Str := strL "\" alt=\""

/-- Template text between the `alt` value and the `cap-title` span text. -/
def tplD : Str :=
  strL "\" loading=\"lazy\">\n      </a>\n      <figcaption>\n        <span class=\"cap-title\">"

/-- Closing of the `cap-title` span. -/
def tplSpanClose : Str := strL "</span>"

/-- Template text closing the figure block. -/
def tplE : Str := strL "\n      </figcaption>\n    </figure>\n"

/-- The `cap-note` span emitted when a note is present. -/
def noteSpanOf (note : Str) : Str :=
  strL "\n        <span class=\"cap-note\">" ++ escape_html note ++ tplSpanClose

/-- `figure_block(filename, title, note)`: one figure's markup.  The
filename is interpolated (escaped with `escape_attr`) into the `href` and
`src` attributes, its stem into `alt`; the title (or the placeholder when
the title is empty) and the note are interpolated with `escape_html` into
the caption spans; the `cap-note` span is omitted entirely when the note
is empty. -/
def figure_block (filename title note : Str) : Str :=
  let title_html := if title = [] then placeholder else title
  let note_html := if note = [] then [] else note
  let note_span := if note_html ≠ [] then noteSpanOf note_html else []
  tplA ++ escape_attr filename ++ tplB ++ escape_attr filename ++
    tplC ++ escape_attr (pyStem filename) ++ tplD ++
    escape_html title_html ++ tplSpanClose ++ note_span ++ tplE

/-- A caption store in memory: Python's
`dict[str, dict[str, str]]` keyed by filename, restricted to its two
fields, as a lookup function (`none` = key absent). -/
def CapMap : Type := Str → Option (Str × Str)

/-- The empty dict. -/
def emptyMap : CapMap := fun _ => none

/-- `d[k] = v` on a dict modelled as a lookup function. -/
def mapInsert (m : CapMap) (k : Str) (v : Str × Str) : CapMap :=
  fun x => if x = k then some v else m x

/-- The body of the renderer's per-image loop in `generate_album.py`:
`cap = captions.get(p.name, {});
figure_block(p.name, cap.get("title",""), cap.get("note",""))`. -/
def renderEntry (captions : CapMap) (fn : Str) : Str :=
  match captions fn with
  | some c => figure_block fn c.1 c.2
  | none => figure_block fn [] []

/-- `"".join(blocks)` over the images, in listed order. -/
def render_figures (captions : CapMap) (images : List Str) : Str :=
  (images.map (renderEntry captions)).flatten

/-- The `SystemExit` message of both scripts:
`f"images ディレクトリが見つかりません: {IMAGES_DIR}"`.  The concrete
directory path is a parameter of the model. -/
def sysExitMsg (imagesPath : Str) : Str :=
  strL "images ディレクトリが見つかりません: " ++ imagesPath

/-- Exit status of the process: `raise SystemExit(msg)` with a string
argument exits with status 1; normal completion exits with 0. -/
def exit_code {α : Type} : Except Str α → Nat
  | Except.error _ => 1
  | Except.ok _ => 0

/-! ## Caption Store codec: CSV writer (`write_csv`, `csv.DictWriter`) -/

/-- One caption row `(filename, title, note)`. -/
abbrev Row := Str × Str × Str

/-- QUOTE_MINIMAL: a field is quoted iff it contains the delimiter, the
quote character, or a line-terminator character. -/
def needsQuote (s : Str) : Bool :=
  s.any (fun c => c = ',' || c = '"' || c = '\r' || c = '\n')

/-- Body of a quoted field: each `"` doubled. -/
def escQ (s : Str) : Str :=
  s.flatMap (fun c => if c = '"' then ['"', '"'] else [c])

/-- Encode one CSV field (Python `csv` default dialect). -/
def csvField (s : Str) : Str :=
  if needsQuote s then '"' :: (escQ s ++ ['"']) else s

/-- Encode one CSV record of three fields, terminated with CRLF (the
default `lineterminator`). -/
def csvRowStr (r : Row) : Str :=
  csvField r.1 ++ ',' :: (csvField r.2.1 ++ ',' :: (csvField r.2.2 ++ strL "\r\n"))

/-- The header row written by `writer.writeheader()`. -/
def headerStr : Str := strL "filename,title,note\r\n"

/-- The byte-order mark written by the `utf-8-sig` codec. -/
def bomChar : Char := '﻿'

/-- `write_csv(csv_path, rows)`: the full file content — BOM, header row,
then one CSV record per row in order. -/
def write_csv (rows : List Row) : Str :=
  bomChar :: (headerStr ++ rows.flatMap csvRowStr)

/-! ## Caption Store codec: CSV reader (`csv.DictReader` over `utf-8-sig`)

Python's `csv.reader` is a character state machine (the default dialect:
delimiter `,`, quote `"`, `\r`/`\n`/`\r\n` all end a record, a doubled
quote inside a quoted field is a literal quote, a zero-length line yields
the empty record, and in non-strict mode text after a closing quote is
appended to the field).  It is modelled as a fold over the characters. -/

/-- Parser mode: start of record, start of field, inside an unquoted
field, inside a quoted field, just after a quote inside a quoted field,
just after a record-terminating `\r` (to absorb the `\n` of CRLF). -/
inductive CsvMode
  | sr | sf | inF | inQ | cq | cr
deriving DecidableEq, Repr

/-- Parser state: completed records (reversed), completed fields of the
current record (reversed), characters of the current field (reversed),
and the mode. -/
structure CsvSt where
  recs : List (List Str)
  flds : List Str
  cur : Str
  mode : CsvMode
deriving DecidableEq, Repr

/-- Close the current record.  `withField` is false exactly for a
zero-length line, which yields the empty record. -/
def endRec (st : CsvSt) (withField : Bool) (c : Char) : CsvSt :=
  { recs := (if withField then (st.cur.reverse :: st.flds).reverse
             else st.flds.reverse) :: st.recs,
    flds := [], cur := [],
    mode := if c = '\r' then CsvMode.cr else CsvMode.sr }

/-- One step of the state machine, for every mode except `cr`. -/
def csvStepCore (st : CsvSt) (c : Char) : CsvSt :=
  match st.mode with
  | CsvMode.sr =>
    if c = '"' then { st with mode := CsvMode.inQ }
    else if c = ',' then
      { st with flds := st.cur.reverse :: st.flds, cur := [], mode := CsvMode.sf }
    else if c = '\r' ∨ c = '\n' then endRec st false c
    else { st with cur := c :: st.cur, mode := CsvMode.inF }
  | CsvMode.sf =>
    if c = '"' then { st with mode := CsvMode.inQ }
    else if c = ',' then
      { st with flds := st.cur.reverse :: st.flds, cur := [], mode := CsvMode.sf }
    else if c = '\r' ∨ c = '\n' then endRec st true c
    else { st with cur := c :: st.cur, mode := CsvMode.inF }
  | CsvMode.inF =>
    if c = ',' then
      { st with flds := st.cur.reverse :: st.flds, cur := [], mode := CsvMode.sf }
    else if c = '\r' ∨ c = '\n' then endRec st true c
    else { st with cur := c :: st.cur }
  | CsvMode.inQ =>
    if c = '"' then { st with mode := CsvMode.cq }
    else { st with cur := c :: st.cur }
  | CsvMode.cq =>
    if c = '"' then { st with cur := '"' :: st.cur, mode := CsvMode.inQ }
    else if c = ',' then
      { st with flds := st.cur.reverse :: st.flds, cur := [], mode := CsvMode.sf }
    else if c = '\r' ∨ c = '\n' then endRec st true c
    else { st with cur := c :: st.cur, mode := CsvMode.inF }
  | CsvMode.cr => st

/-- One step of the state machine.  In mode `cr` a following `\n`
completes the CRLF and is absorbed; any other character is processed at
the start of a record. -/
def csvStep (st : CsvSt) (c : Char) : CsvSt :=
  match st.mode with
  | CsvMode.cr =>
    if c = '\n' then { st with mode := CsvMode.sr }
    else csvStepCore { st with mode := CsvMode.sr } c
  | _ => csvStepCore st c

/-- Initial parser state. -/
def csvInit : CsvSt := ⟨[], [], [], CsvMode.sr⟩

/-- Flush the final record (if the input did not end with a newline). -/
def csvFinish (st : CsvSt) : List (List Str) :=
  match st.mode with
  | CsvMode.sr => st.recs.reverse
  | CsvMode.cr => st.recs.reverse
  | _ => ((st.cur.reverse :: st.flds).reverse :: st.recs).reverse

/-- `csv.reader`: the list of records of a character stream. -/
def parseCsv (s : Str) : List (List Str) :=
  csvFinish (s.foldl csvStep csvInit)

/-- The `utf-8-sig` decoder: strip one leading byte-order mark. -/
def bomStrip (s : Str) : Str :=
  match s with
  | [] => []
  | c :: r => if c = bomChar then r else c :: r

/-- Index assigned to a column name by `csv.DictReader` (values of
duplicated names are overwritten left-to-right, so the last occurrence
wins). -/
def colIndex (header : List Str) (key : Str) : Option Nat :=
  (List.range header.length).foldl
    (fun acc i => if header.get? i = some key then some i else acc) none

/-- `row.get(key)` on a `csv.DictReader` row: the value at the key's
column, `None` (here `none`) when the key is not a column or the row is
too short (`restval`). -/
def rowGet (header row : List Str) (key : Str) : Option Str :=
  match colIndex header key with
  | some i => row.get? i
  | none => none

/-- Body of the reader loop shared by `load_captions` and
`read_existing`: skip empty records (blank lines), skip rows whose
`filename` is empty after stripping, otherwise store the stripped title
and note under the stripped filename. -/
def readRow (header : List Str) (m : CapMap) (row : List Str) : CapMap :=
  if row = [] then m
  else if pyStrip ((rowGet header row (strL "filename")).getD []) = [] then m
  else mapInsert m (pyStrip ((rowGet header row (strL "filename")).getD []))
    (pyStrip ((rowGet header row (strL "title")).getD []),
     pyStrip ((rowGet header row (strL "note")).getD []))

/-- Parse a caption CSV file's content into a dict: decode (stripping a
BOM), take the first record as the header, fold the remaining records. -/
def read_content (content : Str) : CapMap :=
  let recs := parseCsv (bomStrip content)
  (recs.tail).foldl (readRow (recs.headD [])) emptyMap

/-- `read_existing(csv_path)` (and identically `load_captions`): empty
dict when the file does not exist, otherwise parse its content. -/
def read_existing : Option Str → CapMap
  | none => emptyMap
  | some c => read_content c

/-- `load_captions` in `generate_album.py` is the same code as
`read_existing` in `sync_captions.py`. -/
def load_captions : Option Str → CapMap := read_existing

/-- The dict denoted by an ordered list of rows: sequential insertion
(last write wins). -/
def rowsToMap (rows : List Row) : CapMap :=
  rows.foldl (fun m r => mapInsert m r.1 r.2) emptyMap

/-! ## Synchronizer and entry points -/

/-- The reconciliation loop of `sync_captions.main`: for each image
filename in order, carry over the existing record or emit a blank one,
counting the blanks added. -/
def sync_loop (m : CapMap) : List Str → List Row × Nat
  | [] => ([], 0)
  | fn :: rest =>
    let cur : Row × Nat :=
      match m fn with
      | some c => ((fn, c.1, c.2), 0)
      | none => ((fn, [], []), 1)
    let r := sync_loop m rest
    (cur.1 :: r.1, cur.2 + r.2)

/-- `sync_captions.main`: abort when the images directory is missing;
otherwise list images, read the existing store, reconcile, and return the
new store content together with the `added` count. -/
def sync_main (imagesPath : Str) (dir : Option (List Entry))
    (csvFile : Option Str) : Except Str (Str × Nat) :=
  match dir with
  | none => Except.error (sysExitMsg imagesPath)
  | some d =>
    let images := list_images d
    let existing := read_existing csvFile
    let r := sync_loop existing images
    Except.ok (write_csv r.1, r.2)

/-- The caption-store content written by a successful Synchronizer run. -/
def sync_output (d : List Entry) (csvFile : Option Str) : Str :=
  write_csv (sync_loop (read_existing csvFile) (list_images d)).1

/-- `generate_album.main` (the figure markup; the surrounding fixed page
template embeds the concatenated figure blocks verbatim): abort when the
images directory is missing; otherwise render every image's figure block
in listed order. -/
def gen_main (imagesPath : Str) (dir : Option (List Entry))
    (csvFile : Option Str) : Except Str Str :=
  match dir with
  | none => Except.error (sysExitMsg imagesPath)
  | some d =>
    let captions := load_captions csvFile
    let images := list_images d
    Except.ok (render_figures captions images)

/-! ## Substring search (used to state that markup contains or omits a
span) -/

/-- `strStarts pat s`: `pat` is a prefix of `s`. -/
def strStarts : Str → Str → Bool
  | [], _ => true
  | _ :: _, [] => false
  | a :: as, b :: bs => a = b && strStarts as bs

/-- `hasSub pat s`: `pat` occurs contiguously somewhere in `s`. -/
def hasSub (pat : Str) : Str → Bool
  | [] => decide (pat = [])
  | c :: rest => strStarts pat (c :: rest) || hasSub pat rest

/-- `stripMap rows`: the dict obtained by inserting each row's stripped
fields under its stripped filename, skipping blank filenames — exactly
what the reader does to a well-formed three-column file. -/
def stripMap (rows : List Row) : CapMap :=
  rows.foldl
    (fun m r =>
      if pyStrip r.1 = [] then m
      else mapInsert m (pyStrip r.1) (pyStrip r.2.1, pyStrip r.2.2))
    emptyMap

/-- Invariant of any dict built by the reader: keys and values are
strip-invariant and keys are non-empty. -/
def StrippedMap (m : CapMap) : Prop :=
  ∀ k v, m k = some v →
    pyStrip k = k ∧ k ≠ [] ∧ pyStrip v.1 = v.1 ∧ pyStrip v.2 = v.2

/-- The header fields of every file the writer produces. -/
def hdrFields : List Str := [strL "filename", strL "title", strL "note"]

/-! ## Lemmas: whitespace stripping -/

theorem pyRstrip_eq_rdropWhile (s : Str) :
    pyRstrip s = List.rdropWhile pyIsSpace s := rfl

theorem pyStrip_nil : pyStrip [] = [] := rfl

theorem pyStrip_idem (s : Str) : pyStrip (pyStrip s) = pyStrip s := by
  unfold pyStrip pyLstrip
  rw [pyRstrip_eq_rdropWhile, pyRstrip_eq_rdropWhile]
  have hpre : List.rdropWhile pyIsSpace (s.dropWhile pyIsSpace) <+:
      s.dropWhile pyIsSpace := List.rdropWhile_prefix _ _
  have hdw : List.dropWhile pyIsSpace
      (List.rdropWhile pyIsSpace (s.dropWhile pyIsSpace)) =
      List.rdropWhile pyIsSpace (s.dropWhile pyIsSpace) := by
    rcases h : List.rdropWhile pyIsSpace (s.dropWhile pyIsSpace) with _ | ⟨c, t⟩
    · rfl
    · rw [List.dropWhile_cons]
      have hc : pyIsSpace c = false := by
        rcases hpre with ⟨tl, htl⟩
        rw [h] at htl
        have hhead : (s.dropWhile pyIsSpace).head? = some c := by
          rw [← htl]; rfl
        have := List.head_dropWhile_not pyIsSpace s
        rcases hs : s.dropWhile pyIsSpace with _ | ⟨c', t'⟩
        · rw [hs] at hhead; exact absurd hhead (by simp)
        · rw [hs] at hhead
          simp only [List.head?_cons, Option.some.injEq] at hhead
          rw [hs] at this
          simp only [List.head_cons] at this
          subst hhead
          simpa using this
      simp [hc]
  rw [hdw, List.rdropWhile_idempotent]

/-! ## Lemmas: the reader produces stripped keys and values -/

theorem strippedMap_empty : StrippedMap emptyMap := by
  intro k v h
  exact absurd h (by simp [emptyMap])

theorem strippedMap_readRow (header : List Str) (m : CapMap)
    (row : List Str) (hm : StrippedMap m) :
    StrippedMap (readRow header m row) := by
  unfold readRow
  split
  · exact hm
  · split
    · exact hm
    · rename_i hrow hfn
      intro k v hkv
      unfold mapInsert at hkv
      by_cases hk : k = pyStrip ((rowGet header row (strL "filename")).getD [])
      · rw [if_pos hk] at hkv
        obtain rfl : (pyStrip ((rowGet header row (strL "title")).getD []),
            pyStrip ((rowGet header row (strL "note")).getD [])) = v := by
          injection hkv
        subst hk
        exact ⟨pyStrip_idem _, hfn, pyStrip_idem _, pyStrip_idem _⟩
      · rw [if_neg hk] at hkv
        exact hm k v hkv

theorem strippedMap_foldl (header : List Str) (rows : List (List Str)) :
    ∀ m : CapMap, StrippedMap m →
      StrippedMap (rows.foldl (readRow header) m) := by
  induction rows with
  | nil => intro m hm; exact hm
  | cons r rest ih =>
    intro m hm
    exact ih (readRow header m r) (strippedMap_readRow header m r hm)

/-- Everything the reader returns is stripped: keys and both value
components are strip-invariant, keys non-empty. -/
theorem read_existing_stripped (file : Option Str) :
    StrippedMap (read_existing file) := by
  cases file with
  | none => exact strippedMap_empty
  | some c =>
    unfold read_existing read_content
    exact strippedMap_foldl _ _ emptyMap strippedMap_empty

/-! ## Lemmas: dict folds -/

theorem foldl_mapInsert_notmem (rows : List Row) (k : Str) :
    ∀ m : CapMap, (∀ r ∈ rows, r.1 ≠ k) →
      rows.foldl (fun m r => mapInsert m r.1 r.2) m k = m k := by
  induction rows with
  | nil => intro m _; rfl
  | cons r rest ih =>
    intro m h
    have hr : r.1 ≠ k := h r (List.mem_cons_self r rest)
    have := ih (mapInsert m r.1 r.2) (fun x hx => h x (List.mem_cons_of_mem r hx))
    rw [List.foldl_cons, this, mapInsert, if_neg (fun hk => hr hk.symm)]

theorem rowsToMap_lookup_mapped (g : Str → Str × Str) :
    ∀ (images : List Str) (m : CapMap) (fn : Str), fn ∈ images →
      (images.map (fun x => (x, g x))).foldl
        (fun m r => mapInsert m r.1 r.2) m fn = some (g fn) := by
  intro images
  induction images with
  | nil => intro m fn h; exact absurd h (List.not_mem_nil fn)
  | cons i rest ih =>
    intro m fn h
    by_cases hfn : fn ∈ rest
    · exact ih (mapInsert m i (g i)) fn hfn
    · have hi : fn = i := by
        rcases List.mem_cons.mp h with h' | h'
        · exact h'
        · exact absurd h' hfn
      subst hi
      rw [List.map_cons, List.foldl_cons]
      have hnot : ∀ r ∈ rest.map (fun x => (x, g x)), r.1 ≠ fn := by
        intro r hr
        obtain ⟨x, hx, rfl⟩ := List.mem_map.mp hr
        intro hx1
        exact hfn (hx1 ▸ hx)
      rw [foldl_mapInsert_notmem _ fn _ hnot, mapInsert, if_pos rfl]

theorem stripMap_eq_rowsToMap (rows : List Row)
    (h : ∀ r ∈ rows, pyStrip r.1 = r.1 ∧ r.1 ≠ [] ∧
        pyStrip r.2.1 = r.2.1 ∧ pyStrip r.2.2 = r.2.2) :
    stripMap rows = rowsToMap rows := by
  unfold stripMap rowsToMap
  suffices haux : ∀ (rs : List Row) (m : CapMap),
      (∀ r ∈ rs, pyStrip r.1 = r.1 ∧ r.1 ≠ [] ∧
        pyStrip r.2.1 = r.2.1 ∧ pyStrip r.2.2 = r.2.2) →
      rs.foldl (fun m r =>
        if pyStrip r.1 = [] then m
        else mapInsert m (pyStrip r.1) (pyStrip r.2.1, pyStrip r.2.2)) m =
      rs.foldl (fun m r => mapInsert m r.1 r.2) m by
    exact haux rows emptyMap h
  intro rs
  induction rs with
  | nil => intro m _; rfl
  | cons r rest ih =>
    intro m h
    obtain ⟨h1, h2, h3, h4⟩ := h r (List.mem_cons_self r rest)
    rw [List.foldl_cons, List.foldl_cons,
      if_neg (fun he => h2 (h1.symm.trans he)), h1, h3, h4]
    exact ih _ (fun x hx => h x (List.mem_cons_of_mem r hx))

/-! ## Lemmas: the synchronizer loop -/

theorem sync_loop_eq (m : CapMap) : ∀ images : List Str,
    sync_loop m images =
      (images.map (fun fn => (fn, (m fn).getD ([], []))),
       (images.filter (fun fn => (m fn).isNone)).length) := by
  intro images
  induction images with
  | nil => rfl
  | cons fn rest ih =>
    show sync_loop m (fn :: rest) = _
    unfold sync_loop
    rw [ih]
    rcases h : m fn with _ | c
    · simp [h, List.filter_cons, Nat.add_comm]
    · simp [h, List.filter_cons]

/-! ## Lemmas: the CSV state machine on writer output -/

theorem needsQuote_false_clean {s : Str} (h : needsQuote s = false) :
    ∀ c ∈ s, c ≠ ',' ∧ c ≠ '"' ∧ c ≠ '\r' ∧ c ≠ '\n' := by
  intro c hc
  have h2 := List.any_eq_false.mp h c hc
  simp only [Bool.or_eq_true, decide_eq_true_eq, not_or] at h2
  exact ⟨h2.1.1.1, h2.1.1.2, h2.1.2, h2.2⟩

theorem foldl_inF (s : Str)
    (h : ∀ c ∈ s, c ≠ ',' ∧ c ≠ '"' ∧ c ≠ '\r' ∧ c ≠ '\n') :
    ∀ recs flds (cur : Str),
      List.foldl csvStep ⟨recs, flds, cur, CsvMode.inF⟩ s =
        ⟨recs, flds, s.reverse ++ cur, CsvMode.inF⟩ := by
  induction s with
  | nil => intro recs flds cur; rfl
  | cons c rest ih =>
    intro recs flds cur
    obtain ⟨h1, _, h3, h4⟩ := h c (List.mem_cons_self c rest)
    have hstep : csvStep ⟨recs, flds, cur, CsvMode.inF⟩ c =
        ⟨recs, flds, c :: cur, CsvMode.inF⟩ := by
      simp only [csvStep, csvStepCore]
      rw [if_neg h1, if_neg (not_or.mpr ⟨h3, h4⟩)]
    rw [List.foldl_cons, hstep,
      ih (fun x hx => h x (List.mem_cons_of_mem c hx)) recs flds (c :: cur)]
    simp

theorem foldl_startField (s : Str) (h : needsQuote s = false)
    (m₀ : CsvMode) (hm : m₀ = CsvMode.sr ∨ m₀ = CsvMode.sf) :
    ∀ recs flds,
      List.foldl csvStep ⟨recs, flds, [], m₀⟩ s =
        ⟨recs, flds, s.reverse, if s = [] then m₀ else CsvMode.inF⟩ := by
  cases s with
  | nil => intro recs flds; simp
  | cons c rest =>
    intro recs flds
    obtain ⟨h1, h2, h3, h4⟩ :=
      needsQuote_false_clean h c (List.mem_cons_self c rest)
    have hstep : csvStep ⟨recs, flds, [], m₀⟩ c =
        ⟨recs, flds, [c], CsvMode.inF⟩ := by
      rcases hm with rfl | rfl <;>
      · simp only [csvStep, csvStepCore]
        rw [if_neg h2, if_neg h1, if_neg (not_or.mpr ⟨h3, h4⟩)]
    have hrest : ∀ x ∈ rest, x ≠ ',' ∧ x ≠ '"' ∧ x ≠ '\r' ∧ x ≠ '\n' :=
      fun x hx => needsQuote_false_clean h x (List.mem_cons_of_mem c hx)
    rw [List.foldl_cons, hstep, foldl_inF rest hrest recs flds [c]]
    simp

theorem foldl_inQ (s : Str) :
    ∀ recs flds (cur : Str),
      List.foldl csvStep ⟨recs, flds, cur, CsvMode.inQ⟩ (escQ s) =
        ⟨recs, flds, s.reverse ++ cur, CsvMode.inQ⟩ := by
  induction s with
  | nil => intro recs flds cur; rfl
  | cons c rest ih =>
    intro recs flds cur
    by_cases hc : c = '"'
    · subst hc
      have hesc : escQ ('"' :: rest) = '"' :: '"' :: escQ rest := by
        simp [escQ]
      rw [hesc, List.foldl_cons, List.foldl_cons]
      have hstep1 : csvStep ⟨recs, flds, cur, CsvMode.inQ⟩ '"' =
          ⟨recs, flds, cur, CsvMode.cq⟩ := by
        simp [csvStep, csvStepCore]
      have hstep2 : csvStep ⟨recs, flds, cur, CsvMode.cq⟩ '"' =
          ⟨recs, flds, '"' :: cur, CsvMode.inQ⟩ := by
        simp [csvStep, csvStepCore]
      rw [hstep1, hstep2, ih recs flds ('"' :: cur)]
      simp
    · have hesc : escQ (c :: rest) = c :: escQ rest := by
        simp [escQ, hc]
      rw [hesc, List.foldl_cons]
      have hstep : csvStep ⟨recs, flds, cur, CsvMode.inQ⟩ c =
          ⟨recs, flds, c :: cur, CsvMode.inQ⟩ := by
        simp only [csvStep, csvStepCore]
        rw [if_neg hc]
      rw [hstep, ih recs flds (c :: cur)]
      simp

theorem foldl_field (s : Str) (m₀ : CsvMode)
    (hm : m₀ = CsvMode.sr ∨ m₀ = CsvMode.sf) (recs : List (List Str))
    (flds : List Str) :
    List.foldl csvStep ⟨recs, flds, [], m₀⟩ (csvField s) =
      ⟨recs, flds, s.reverse,
        if needsQuote s then CsvMode.cq
        else if s = [] then m₀ else CsvMode.inF⟩ := by
  by_cases hq : needsQuote s
  · rw [csvField, if_pos hq, if_pos hq, List.foldl_cons]
    have hstep : csvStep ⟨recs, flds, [], m₀⟩ '"' =
        ⟨recs, flds, [], CsvMode.inQ⟩ := by
      rcases hm with rfl | rfl <;> simp [csvStep, csvStepCore]
    rw [hstep, List.foldl_append, foldl_inQ s recs flds []]
    have hstep2 : csvStep ⟨recs, flds, s.reverse ++ [], CsvMode.inQ⟩ '"' =
        ⟨recs, flds, s.reverse ++ [], CsvMode.cq⟩ := by
      simp [csvStep, csvStepCore]
    show List.foldl csvStep _ ['"'] = _
    rw [List.foldl_cons, hstep2]
    simp
  · rw [csvField, if_neg hq, if_neg (Bool.eq_false_iff.mpr hq ▸ by simp)]
    rw [foldl_startField s (Bool.eq_false_iff.mpr hq) m₀ hm recs flds]

theorem csvStep_comma (st : CsvSt)
    (hm : st.mode = CsvMode.sr ∨ st.mode = CsvMode.sf ∨
      st.mode = CsvMode.inF ∨ st.mode = CsvMode.cq) :
    csvStep st ',' =
      ⟨st.recs, st.cur.reverse :: st.flds, [], CsvMode.sf⟩ := by
  obtain ⟨recs, flds, cur, mode⟩ := st
  rcases hm with h | h | h | h <;> (cases h; simp [csvStep, csvStepCore])

theorem foldl_endRecord (st : CsvSt)
    (hm : st.mode = CsvMode.sf ∨ st.mode = CsvMode.inF ∨
      st.mode = CsvMode.cq) (rest : Str) :
    List.foldl csvStep st ('\r' :: '\n' :: rest) =
      List.foldl csvStep
        ⟨(st.cur.reverse :: st.flds).reverse :: st.recs, [], [],
          CsvMode.sr⟩ rest := by
  obtain ⟨recs, flds, cur, mode⟩ := st
  have hstep1 : csvStep ⟨recs, flds, cur, mode⟩ '\r' =
      ⟨(cur.reverse :: flds).reverse :: recs, [], [], CsvMode.cr⟩ := by
    rcases hm with h | h | h <;> (cases h; simp [csvStep, csvStepCore, endRec])
  have hstep2 : csvStep
      ⟨(cur.reverse :: flds).reverse :: recs, [], [], CsvMode.cr⟩ '\n' =
      ⟨(cur.reverse :: flds).reverse :: recs, [], [], CsvMode.sr⟩ := by
    simp [csvStep]
  rw [List.foldl_cons, hstep1, List.foldl_cons, hstep2]

theorem foldl_row (r : Row) (recs : List (List Str)) :
    List.foldl csvStep ⟨recs, [], [], CsvMode.sr⟩ (csvRowStr r) =
      ⟨[r.1, r.2.1, r.2.2] :: recs, [], [], CsvMode.sr⟩ := by
  have hcrlf : strL "\r\n" = ['\r', '\n'] := rfl
  rw [csvRowStr, hcrlf, List.foldl_append,
    foldl_field r.1 CsvMode.sr (Or.inl rfl) recs []]
  set m1 := if needsQuote r.1 then CsvMode.cq
    else if r.1 = [] then CsvMode.sr else CsvMode.inF with hm1
  have hm1' : m1 = CsvMode.sr ∨ m1 = CsvMode.sf ∨ m1 = CsvMode.inF ∨
      m1 = CsvMode.cq := by
    rw [hm1]; split_ifs <;> simp
  rw [List.foldl_cons, csvStep_comma ⟨recs, [], r.1.reverse, m1⟩ hm1']
  simp only [List.reverse_reverse]
  rw [List.foldl_append, foldl_field r.2.1 CsvMode.sf (Or.inr rfl) recs [r.1]]
  set m2 := if needsQuote r.2.1 then CsvMode.cq
    else if r.2.1 = [] then CsvMode.sf else CsvMode.inF with hm2
  have hm2' : m2 = CsvMode.sr ∨ m2 = CsvMode.sf ∨ m2 = CsvMode.inF ∨
      m2 = CsvMode.cq := by
    rw [hm2]; split_ifs <;> simp
  rw [List.foldl_cons, csvStep_comma ⟨recs, [r.1], r.2.1.reverse, m2⟩ hm2']
  simp only [List.reverse_reverse]
  rw [List.foldl_append, foldl_field r.2.2 CsvMode.sf (Or.inr rfl) recs
    [r.2.1, r.1]]
  set m3 := if needsQuote r.2.2 then CsvMode.cq
    else if r.2.2 = [] then CsvMode.sf else CsvMode.inF with hm3
  have hm3' : m3 = CsvMode.sf ∨ m3 = CsvMode.inF ∨ m3 = CsvMode.cq := by
    rw [hm3]; split_ifs <;> simp
  rw [foldl_endRecord ⟨recs, [r.2.1, r.1], r.2.2.reverse, m3⟩ hm3' []]
  simp

theorem foldl_rows (rows : List Row) :
    ∀ recs : List (List Str),
      List.foldl csvStep ⟨recs, [], [], CsvMode.sr⟩ (rows.flatMap csvRowStr) =
        ⟨(rows.map (fun r => [r.1, r.2.1, r.2.2])).reverse ++ recs, [], [],
          CsvMode.sr⟩ := by
  induction rows with
  | nil => intro recs; simp
  | cons r rest ih =>
    intro recs
    rw [List.flatMap_cons, List.foldl_append, foldl_row r recs,
      ih ([r.1, r.2.1, r.2.2] :: recs)]
    simp

theorem parseCsv_write (rows : List Row) :
    parseCsv (bomStrip (write_csv rows)) =
      hdrFields :: rows.map (fun r => [r.1, r.2.1, r.2.2]) := by
  have hbom : bomStrip (write_csv rows) =
      headerStr ++ rows.flatMap csvRowStr := by
    simp [write_csv, bomStrip]
  have hhdr : headerStr = csvRowStr (strL "filename", strL "title", strL "note") := rfl
  rw [parseCsv, hbom, hhdr, List.foldl_append]
  have hinit : List.foldl csvStep csvInit
      (csvRowStr (strL "filename", strL "title", strL "note")) =
      ⟨[hdrFields], [], [], CsvMode.sr⟩ := by
    rw [show csvInit = ⟨[], [], [], CsvMode.sr⟩ from rfl,
      foldl_row (strL "filename", strL "title", strL "note") []]
    rfl
  rw [hinit, foldl_rows rows [hdrFields], csvFinish]
  simp

theorem readRow_triple (m : CapMap) (f t n : Str) :
    readRow hdrFields m [f, t, n] =
      if pyStrip f = [] then m
      else mapInsert m (pyStrip f) (pyStrip t, pyStrip n) := by
  have hf : rowGet hdrFields [f, t, n] (strL "filename") = some f := by
    rw [rowGet, show colIndex hdrFields (strL "filename") = some 0 by decide]
    rfl
  have ht : rowGet hdrFields [f, t, n] (strL "title") = some t := by
    rw [rowGet, show colIndex hdrFields (strL "title") = some 1 by decide]
    rfl
  have hn : rowGet hdrFields [f, t, n] (strL "note") = some n := by
    rw [rowGet, show colIndex hdrFields (strL "note") = some 2 by decide]
    rfl
  rw [readRow, if_neg (by simp), hf, ht, hn]
  rfl

/-- Reading back exactly what the writer wrote: the resulting dict inserts
each row's stripped fields under its stripped filename, skipping rows
whose filename strips to empty. -/
theorem read_write_eq_stripMap (rows : List Row) :
    read_existing (some (write_csv rows)) = stripMap rows := by
  show read_content (write_csv rows) = stripMap rows
  rw [read_content, parseCsv_write rows]
  show (rows.map (fun r => [r.1, r.2.1, r.2.2])).foldl
    (readRow hdrFields) emptyMap = stripMap rows
  rw [List.foldl_map, stripMap]
  have hfun : (fun (x : CapMap) (y : Row) => readRow hdrFields x [y.1, y.2.1, y.2.2]) =
      fun m r => if pyStrip r.1 = [] then m
        else mapInsert m (pyStrip r.1) (pyStrip r.2.1, pyStrip r.2.2) := by
    funext m r
    exact readRow_triple m r.1 r.2.1 r.2.2
  rw [hfun]

/-- Round trip on strip-invariant rows with non-empty filenames: reading
the written file back gives exactly the dict the rows denote. -/
theorem readWrite_rowsToMap (rows : List Row)
    (h : ∀ r ∈ rows, pyStrip r.1 = r.1 ∧ r.1 ≠ [] ∧
        pyStrip r.2.1 = r.2.1 ∧ pyStrip r.2.2 = r.2.2) :
    read_existing (some (write_csv rows)) = rowsToMap rows :=
  (read_write_eq_stripMap rows).trans (stripMap_eq_rowsToMap rows h)

/-! ## Lemmas: escaping -/

theorem mem_pyReplace {d c : Char} {rep s : Str}
    (h : d ∈ pyReplace c rep s) : d ∈ rep ∨ (d ∈ s ∧ d ≠ c) := by
  rw [pyReplace] at h
  obtain ⟨a, ha, hd⟩ := List.mem_flatMap.mp h
  by_cases hac : a = c
  · rw [if_pos hac] at hd
    exact Or.inl hd
  · rw [if_neg hac] at hd
    obtain rfl : d = a := List.mem_singleton.mp hd
    exact Or.inr ⟨ha, hac⟩

theorem not_mem_pyReplace {d c : Char} {rep s : Str}
    (h1 : d ∉ rep) (h2 : d = c ∨ d ∉ s) : d ∉ pyReplace c rep s := by
  intro hmem
  rcases mem_pyReplace hmem with h | ⟨hs, hne⟩
  · exact h1 h
  · rcases h2 with h2 | h2
    · exact hne h2
    · exact h2 hs

theorem lt_not_mem_escape_html (s : Str) : '<' ∉ escape_html s := by
  rw [escape_html]
  refine not_mem_pyReplace (by decide) (Or.inr ?_)
  refine not_mem_pyReplace (by decide) (Or.inr ?_)
  exact not_mem_pyReplace (by decide) (Or.inl rfl)

theorem gt_not_mem_escape_html (s : Str) : '>' ∉ escape_html s := by
  rw [escape_html]
  refine not_mem_pyReplace (by decide) (Or.inr ?_)
  exact not_mem_pyReplace (by decide) (Or.inl rfl)

theorem quot_not_mem_escape_html (s : Str) : '"' ∉ escape_html s := by
  rw [escape_html]
  exact not_mem_pyReplace (by decide) (Or.inl rfl)

theorem lt_not_mem_escape_attr (s : Str) : '<' ∉ escape_attr s := by
  rw [escape_attr]
  exact not_mem_pyReplace (by decide) (Or.inr (lt_not_mem_escape_html s))

theorem gt_not_mem_escape_attr (s : Str) : '>' ∉ escape_attr s := by
  rw [escape_attr]
  exact not_mem_pyReplace (by decide) (Or.inr (gt_not_mem_escape_html s))

theorem quot_not_mem_escape_attr (s : Str) : '"' ∉ escape_attr s := by
  rw [escape_attr]
  exact not_mem_pyReplace (by decide) (Or.inr (quot_not_mem_escape_html s))

theorem apos_not_mem_escape_attr (s : Str) : '\'' ∉ escape_attr s := by
  rw [escape_attr]
  exact not_mem_pyReplace (by decide) (Or.inl rfl)

/-! ## Lemmas: the Image Lister -/

/-- Membership characterization of `list_images`: exactly the names of
the regular-file entries whose lowercased suffix is an allowed image
extension. -/
theorem mem_list_images (d : List Entry) (n : Str) :
    n ∈ list_images d ↔
      ∃ e, e ∈ d ∧ e.isFile = true ∧
        pyLower (pySuffix e.name) ∈ IMAGE_EXTS ∧ e.name = n := by
  rw [list_images]
  rw [(List.perm_insertionSort keyLe ((d.filter eligible).map Entry.name)).mem_iff]
  simp only [List.mem_map, List.mem_filter, eligible, Bool.and_eq_true,
    decide_eq_true_eq]
  constructor
  · rintro ⟨e, ⟨he, hf, hx⟩, rfl⟩
    exact ⟨e, he, hf, hx, rfl⟩
  · rintro ⟨e, he, hf, hx, rfl⟩
    exact ⟨e, ⟨he, hf, hx⟩, rfl⟩

theorem rfindDot_eq_none {s : Str} (h : ∀ c ∈ s, c ≠ '.') :
    rfindDot s = none := by
  induction s with
  | nil => rfl
  | cons c cs ih =>
    rw [rfindDot, ih (fun x hx => h x (List.mem_cons_of_mem c hx))]
    exact if_neg (h c (List.mem_cons_self c cs))

/-- A name that is a single dot followed by dotless text has no
`pathlib` suffix. -/
theorem pySuffix_dotfile {ext : Str} (h : ∀ c ∈ ext, c ≠ '.') :
    pySuffix ('.' :: ext) = [] := by
  rw [pySuffix, rfindDot, rfindDot_eq_none h]
  simp


/-! ## The claims -/

/-- C1, counterexample: a caption title containing the five characters
`<`, `>`, `&`, `"`, `'` does NOT have the apostrophe replaced in the
rendered figure caption text: the rendered block still contains a raw
apostrophe (and neither the filename `a.jpg` nor the fixed template text
contributes one — the apostrophe survives from the title, escaped only by
`escape_html`, which leaves it alone). -/
theorem c1_escape_counterexample :
    '\'' ∈ figure_block (strL "a.jpg") ['<', '>', '&', '"', '\''] []
    ∧ '\'' ∉ strL "a.jpg"
    ∧ escape_html ['<', '>', '&', '"', '\''] =
        strL "&lt;&gt;&amp;&quot;" ++ ['\''] := by
  refine ⟨by decide, by decide, by decide⟩

/-- C1 (amended): the four characters `&`, `<`, `>`, `"` are escaped in
every context into which a value is interpolated; the apostrophe is
additionally escaped — via `escape_attr` — exactly in the attribute
contexts (`href`, `src`, `alt`), while the caption text spans use
`escape_html`, which leaves the apostrophe unescaped.  Conjuncts: the
shape of `figure_block` (which escaper guards which context), absence of
raw specials in the escaped output, and the individual entity
replacements. -/
theorem c1_escaping_contexts (fn title note s : Str) :
    figure_block fn title note =
      tplA ++ escape_attr fn ++ tplB ++ escape_attr fn ++ tplC ++
        escape_attr (pyStem fn) ++ tplD ++
        escape_html (if title = [] then placeholder else title) ++
        tplSpanClose ++
        (if note = [] then [] else noteSpanOf note) ++ tplE
    ∧ '<' ∉ escape_html s ∧ '>' ∉ escape_html s ∧ '"' ∉ escape_html s
    ∧ '<' ∉ escape_attr s ∧ '>' ∉ escape_attr s ∧ '"' ∉ escape_attr s
    ∧ '\'' ∉ escape_attr s
    ∧ escape_html ['&'] = strL "&amp;"
    ∧ escape_html ['<'] = strL "&lt;"
    ∧ escape_html ['>'] = strL "&gt;"
    ∧ escape_html ['"'] = strL "&quot;"
    ∧ escape_attr ['\''] = strL "&#39;" := by
  refine ⟨?_, lt_not_mem_escape_html s, gt_not_mem_escape_html s,
    quot_not_mem_escape_html s, lt_not_mem_escape_attr s,
    gt_not_mem_escape_attr s, quot_not_mem_escape_attr s,
    apos_not_mem_escape_attr s, by decide, by decide, by decide, by decide,
    by decide⟩
  by_cases hn : note = [] <;> by_cases ht : title = [] <;>
    simp [figure_block, hn, ht]

/-- C2: on an existing images directory, the Synchronizer returns exactly
the store whose rows are the current image filenames in the Image
Lister's order, each carrying the existing store's title/note when the
filename is a key there and blank fields otherwise, and reports as `added`
the number of image filenames that are not keys of the existing store. -/
theorem c2_sync_reconciliation (p : Str) (d : List Entry) (csv : Option Str) :
    sync_main p (some d) csv =
      Except.ok
        (write_csv ((list_images d).map
          (fun fn => (fn, (read_existing csv fn).getD ([], [])))),
         ((list_images d).filter
           (fun fn => (read_existing csv fn).isNone)).length)
    ∧ (sync_loop (read_existing csv) (list_images d)).1.map Prod.fst =
        list_images d := by
  have h := sync_loop_eq (read_existing csv) (list_images d)
  have e1 : sync_main p (some d) csv = Except.ok
      (write_csv (sync_loop (read_existing csv) (list_images d)).1,
       (sync_loop (read_existing csv) (list_images d)).2) := rfl
  have e2 : (sync_loop (read_existing csv) (list_images d)).1 =
      (list_images d).map
        (fun fn => (fn, (read_existing csv fn).getD ([], []))) := by
    rw [h]
  have e3 : (sync_loop (read_existing csv) (list_images d)).2 =
      ((list_images d).filter
        (fun fn => (read_existing csv fn).isNone)).length := by
    rw [h]
  constructor
  · rw [e1, e2, e3]
  · rw [e2, List.map_map]
    conv_rhs => rw [← List.map_id (list_images d)]
    apply List.map_congr_left
    intro a _
    rfl

/-- C3: the Synchronizer's output is a fixed point of the Synchronizer
once the key set of the store it wrote matches the current image set:
running it a second time over its own output produces byte-for-byte the
same store content. -/
theorem c3_sync_idempotent (d : List Entry) (csv : Option Str)
    (hkeys : ∀ k, (read_existing (some (sync_output d csv)) k).isSome ↔
      k ∈ list_images d) :
    sync_output d (some (sync_output d csv)) = sync_output d csv := by
  have hrows1 : (sync_loop (read_existing csv) (list_images d)).1 =
      (list_images d).map
        (fun fn => (fn, (read_existing csv fn).getD ([], []))) := by
    rw [sync_loop_eq]
  have hout1 : sync_output d csv =
      write_csv ((list_images d).map
        (fun fn => (fn, (read_existing csv fn).getD ([], [])))) := by
    rw [show sync_output d csv =
      write_csv (sync_loop (read_existing csv) (list_images d)).1 from rfl,
      hrows1]
  have hsome : ∀ fn ∈ list_images d,
      ∃ v, read_existing (some (sync_output d csv)) fn = some v := by
    intro fn hfn
    have h1 := (hkeys fn).mpr hfn
    rcases hv : read_existing (some (sync_output d csv)) fn with _ | v
    · rw [hv] at h1
      simp at h1
    · exact ⟨v, rfl⟩
  have himgstr : ∀ fn ∈ list_images d, pyStrip fn = fn ∧ fn ≠ [] := by
    intro fn hfn
    obtain ⟨v, hv⟩ := hsome fn hfn
    have h := read_existing_stripped (some (sync_output d csv)) fn v hv
    exact ⟨h.1, h.2.1⟩
  have hprops : ∀ r ∈ (list_images d).map
      (fun fn => (fn, (read_existing csv fn).getD ([], []))),
      pyStrip r.1 = r.1 ∧ r.1 ≠ [] ∧ pyStrip r.2.1 = r.2.1 ∧
        pyStrip r.2.2 = r.2.2 := by
    intro r hr
    obtain ⟨fn, hfn, rfl⟩ := List.mem_map.mp hr
    refine ⟨(himgstr fn hfn).1, (himgstr fn hfn).2, ?_, ?_⟩
    · rcases hv : read_existing csv fn with _ | v
      · rfl
      · exact (read_existing_stripped csv fn v hv).2.2.1
    · rcases hv : read_existing csv fn with _ | v
      · rfl
      · exact (read_existing_stripped csv fn v hv).2.2.2
  have hm2 : read_existing (some (sync_output d csv)) =
      rowsToMap ((list_images d).map
        (fun fn => (fn, (read_existing csv fn).getD ([], [])))) := by
    rw [hout1, readWrite_rowsToMap _ hprops]
  have hlook : ∀ fn ∈ list_images d,
      read_existing (some (sync_output d csv)) fn =
        some ((read_existing csv fn).getD ([], [])) := by
    intro fn hfn
    rw [hm2, rowsToMap]
    exact rowsToMap_lookup_mapped
      (fun x => (read_existing csv x).getD ([], [])) (list_images d)
      emptyMap fn hfn
  have hfinal : (sync_loop (read_existing (some (sync_output d csv)))
      (list_images d)).1 = (sync_loop (read_existing csv) (list_images d)).1 := by
    rw [sync_loop_eq, sync_loop_eq]
    apply List.map_congr_left
    intro fn hfn
    rw [hlook fn hfn]
    rfl
  exact congrArg write_csv hfinal

/-- C3 witness: a concrete run — one image `a.jpg`, no prior store — whose
first output's key set matches the image set; the second run reproduces
the first output exactly. -/
theorem c3_sync_idempotent_witness :
    sync_output [⟨strL "a.jpg", true⟩]
        (some (sync_output [⟨strL "a.jpg", true⟩] none)) =
      sync_output [⟨strL "a.jpg", true⟩] none := by
  apply c3_sync_idempotent
  intro k
  have h1 : sync_output [⟨strL "a.jpg", true⟩] none =
      write_csv [(strL "a.jpg", [], [])] := rfl
  rw [h1, read_write_eq_stripMap]
  have h2 : stripMap [(strL "a.jpg", [], [])] =
      mapInsert emptyMap (strL "a.jpg") ([], []) := rfl
  have h3 : list_images [⟨strL "a.jpg", true⟩] = [strL "a.jpg"] := rfl
  rw [h2, h3]
  simp only [mapInsert]
  by_cases hk : k = strL "a.jpg"
  · simp [hk]
  · simp [hk, emptyMap]

/-- C4, counterexample: the codec's read trims whitespace, so write-read
is NOT the identity on all rows: a title with a leading space comes back
without it. -/
theorem c4_roundtrip_counterexample :
    read_existing (some (write_csv [(strL "a.jpg", ' ' :: strL "x", strL "n")]))
        (strL "a.jpg") ≠
      rowsToMap [(strL "a.jpg", ' ' :: strL "x", strL "n")] (strL "a.jpg") := by
  decide

/-- C4 (amended): for rows whose filename is non-empty and whose three
fields carry no leading or trailing whitespace (the reader strips fields),
writing via the codec and reading back yields exactly the dict the rows
denote (last write wins) — including fields containing commas, double
quotes and embedded newlines, which the CSV quoting round-trips. -/
theorem c4_roundtrip_stripped (rows : List Row)
    (h : ∀ r ∈ rows, pyStrip r.1 = r.1 ∧ r.1 ≠ [] ∧
        pyStrip r.2.1 = r.2.1 ∧ pyStrip r.2.2 = r.2.2) :
    read_existing (some (write_csv rows)) = rowsToMap rows :=
  readWrite_rowsToMap rows h

/-- C4 witness: a concrete row whose title contains a comma, double
quotes and an embedded newline round-trips exactly. -/
theorem c4_roundtrip_stripped_witness :
    (∀ r ∈ [((strL "a.jpg" : Str),
        (strL "x,\"y\"\nz" : Str), (strL "w" : Str))],
      pyStrip r.1 = r.1 ∧ r.1 ≠ [] ∧
        pyStrip r.2.1 = r.2.1 ∧ pyStrip r.2.2 = r.2.2)
    ∧ read_existing
        (some (write_csv [(strL "a.jpg", strL "x,\"y\"\nz", strL "w")])) =
      rowsToMap [(strL "a.jpg", strL "x,\"y\"\nz", strL "w")] :=
  ⟨by decide, c4_roundtrip_stripped
    [(strL "a.jpg", strL "x,\"y\"\nz", strL "w")] (by decide)⟩

/-- C5: the Image Lister's output is sorted ascending by case-insensitive
lexicographic comparison of the filenames, it is a permutation of the
eligible entries' names, and it is deterministic: equal directory states
give the identical sequence (also when two filenames differ only in
case). -/
theorem c5_lister_sorted_deterministic (d : List Entry) :
    List.Sorted keyLe (list_images d)
    ∧ (list_images d).Perm ((d.filter eligible).map Entry.name)
    ∧ ∀ d' : List Entry, d = d' → list_images d = list_images d' := by
  refine ⟨List.sorted_insertionSort keyLe _,
    List.perm_insertionSort keyLe _, ?_⟩
  intro d' h
  rw [h]

/-- C6: membership in the Image Lister's output is exactly being the name
of a regular-file entry of the directory whose lowercased `pathlib` suffix
is in the allowed set — so `a.txt` (wrong extension) and a directory named
`b.jpg` are excluded while `a.JPG` and `a.Jpg` are included. -/
theorem c6_extension_filter :
    (∀ (d : List Entry) (n : Str),
      n ∈ list_images d ↔
        ∃ e, e ∈ d ∧ e.isFile = true ∧
          pyLower (pySuffix e.name) ∈ IMAGE_EXTS ∧ e.name = n)
    ∧ strL "a.txt" ∉ list_images
        [⟨strL "a.txt", true⟩, ⟨strL "b.jpg", false⟩,
         ⟨strL "a.JPG", true⟩, ⟨strL "a.Jpg", true⟩]
    ∧ strL "b.jpg" ∉ list_images
        [⟨strL "a.txt", true⟩, ⟨strL "b.jpg", false⟩,
         ⟨strL "a.JPG", true⟩, ⟨strL "a.Jpg", true⟩]
    ∧ strL "a.JPG" ∈ list_images
        [⟨strL "a.txt", true⟩, ⟨strL "b.jpg", false⟩,
         ⟨strL "a.JPG", true⟩, ⟨strL "a.Jpg", true⟩]
    ∧ strL "a.Jpg" ∈ list_images
        [⟨strL "a.txt", true⟩, ⟨strL "b.jpg", false⟩,
         ⟨strL "a.JPG", true⟩, ⟨strL "a.Jpg", true⟩] :=
  ⟨mem_list_images, by decide, by decide, by decide, by decide⟩

/-- C7: an image whose filename has no caption-store entry renders via
`figure_block` with empty title and note; an empty title renders as the
fixed placeholder text (which `escape_html` maps to itself); and an empty
note produces a block with no `cap-note` span at all — structurally the
concatenation ends `</span>` then `</figcaption>`, and on a concrete input
the marker `cap-note` occurs in the markup exactly when the note is
non-empty. -/
theorem c7_placeholder_and_note (cap : CapMap) (fn title : Str)
    (h : cap fn = none) :
    renderEntry cap fn = figure_block fn [] []
    ∧ figure_block fn title [] =
        tplA ++ escape_attr fn ++ tplB ++ escape_attr fn ++ tplC ++
          escape_attr (pyStem fn) ++ tplD ++
          escape_html (if title = [] then placeholder else title) ++
          tplSpanClose ++ tplE
    ∧ escape_html placeholder = placeholder
    ∧ hasSub (strL "cap-note")
        (figure_block (strL "a.jpg") (strL "t") []) = false
    ∧ hasSub (strL "cap-note")
        (figure_block (strL "a.jpg") (strL "t") (strL "n")) = true := by
  refine ⟨?_, ?_, by decide, by decide, by decide⟩
  · rw [renderEntry, h]
  · by_cases ht : title = [] <;> simp [figure_block, ht]

/-- C7 witness: the placeholder and note-omission facts at a concrete
missing-entry lookup. -/
theorem c7_placeholder_witness :
    renderEntry emptyMap (strL "a.jpg") = figure_block (strL "a.jpg") [] []
    ∧ escape_html placeholder = placeholder :=
  ⟨(c7_placeholder_and_note emptyMap (strL "a.jpg") (strL "t") rfl).1,
   (c7_placeholder_and_note emptyMap (strL "a.jpg") (strL "t") rfl).2.2.1⟩

/-- C8: reading a non-existent caption file yields the empty dict (no
error); a row whose filename field is missing or strips to empty produces
no entry; a header without title/note columns (or blank fields) yields
empty strings for those fields. -/
theorem c8_reader_defaults :
    (∀ k, read_existing none k = none)
    ∧ (∀ (header row : List Str) (m : CapMap),
        pyStrip ((rowGet header row (strL "filename")).getD []) = [] →
        readRow header m row = m)
    ∧ read_existing (some (strL "filename\r\na.jpg\r\n")) =
        mapInsert emptyMap (strL "a.jpg") ([], [])
    ∧ read_existing (some (strL "filename,title,note\r\na.jpg,,\r\n")) =
        mapInsert emptyMap (strL "a.jpg") ([], [])
    ∧ read_existing (some (strL "filename,title,note\r\n   ,t,n\r\n")) =
        emptyMap := by
  refine ⟨fun k => rfl, ?_, rfl, rfl, rfl⟩
  intro header row m h
  by_cases hrow : row = []
  · rw [readRow, if_pos hrow]
  · rw [readRow, if_neg hrow, if_pos h]

/-- C8 witness: a row whose filename field is all whitespace leaves the
dict unchanged. -/
theorem c8_reader_defaults_witness :
    readRow [strL "filename"] emptyMap [[' ', ' ']] = emptyMap :=
  c8_reader_defaults.2.1 [strL "filename"] [[' ', ' ']] emptyMap (by decide)

/-- C9: with the images directory absent, both entry points terminate
with the `SystemExit` message naming the missing path (the message is the
fixed text followed by the path), the exit status is 1 (non-zero), and no
output value is produced — neither returns `Except.ok`, so neither the
caption store nor the HTML is written. -/
theorem c9_missing_dir (p : Str) (csv : Option Str) :
    sync_main p none csv = Except.error (sysExitMsg p)
    ∧ gen_main p none csv = Except.error (sysExitMsg p)
    ∧ sysExitMsg p = strL "images ディレクトリが見つかりません: " ++ p
    ∧ exit_code (sync_main p none csv) = 1
    ∧ exit_code (gen_main p none csv) = 1
    ∧ (∀ out, sync_main p none csv ≠ Except.ok out)
    ∧ (∀ out, gen_main p none csv ≠ Except.ok out) :=
  ⟨rfl, rfl, rfl, rfl, rfl,
   fun _ h => Except.noConfusion h, fun _ h => Except.noConfusion h⟩

/-- C10: a regular file whose entire name is a dot followed by an allowed
extension (`.jpg`, `.PNG`, …) never appears in the Image Lister's output:
`pathlib` gives such a dotfile an empty suffix, which is not in the
allowed set. -/
theorem c10_dotfile_excluded (d : List Entry) (ext : Str)
    (h : pyLower ('.' :: ext) ∈ IMAGE_EXTS) :
    ('.' :: ext) ∉ list_images d := by
  intro hmem
  obtain ⟨e, _, _, hx, hname⟩ := (mem_list_images d ('.' :: ext)).mp hmem
  have hlow : pyLower ('.' :: ext) = '.' :: pyLower ext := by
    rw [pyLower, List.map_cons, show Char.toLower '.' = '.' from by decide]
    rfl
  have hdotless : ∀ c ∈ ext, c ≠ '.' := by
    intro c hc hceq
    subst hceq
    have hmm : '.' ∈ pyLower ext := by
      have hmem2 := List.mem_map_of_mem Char.toLower hc
      rwa [show Char.toLower '.' = '.' from by decide] at hmem2
    rw [hlow] at h
    simp only [IMAGE_EXTS, List.mem_cons, List.not_mem_nil, or_false] at h
    rcases h with h1 | h1 | h1 | h1 | h1 <;>
      exact absurd (((List.cons.injEq _ _ _ _).mp h1).2 ▸ hmm) (by decide)
  have hsuf : pySuffix ('.' :: ext) = [] := pySuffix_dotfile hdotless
  rw [hname, hsuf] at hx
  exact absurd hx (by decide)

/-- C10 witness: the dotfile `.jpg` is excluded even from a directory that
contains it as a regular file. -/
theorem c10_dotfile_excluded_witness :
    pyLower ('.' :: strL "jpg") ∈ IMAGE_EXTS
    ∧ ('.' :: strL "jpg") ∉ list_images [⟨'.' :: strL "jpg", true⟩] :=
  ⟨by decide, c10_dotfile_excluded [⟨'.' :: strL "jpg", true⟩]
    (strL "jpg") (by decide)⟩
